import Mathlib

/-!
Verification of the bitcrush image service: a shallow embedding of
`src/main.rs` (the `BitCrush` transform, the `/upload` handler and the
`/images/:name` handler with its in-memory store) together with proofs of
the specification's claims about it.
-/

namespace MoreJpeg

/-- A pixel in a cylindrical colour space.  Modelled from the spec: the
glossary defines hue rotation as shifting the hue angle, leaving
lightness/saturation unchanged; the pixel-level operations of the external
`image` crate are represented at that level. -/
structure HSL where
  hue : Fin 360
  sat : Nat
  lum : Nat
deriving DecidableEq, Repr

/-- A decoded image (`DynamicImage`): dimensions plus row-major pixel data. -/
structure Img where
  width : Nat
  height : Nat
  pix : List HSL
deriving DecidableEq, Repr

/-- 180-degree rotation (`DynamicImage::rotate180`, a point reflection):
pixel (x, y) moves to (w-1-x, h-1-y), so on row-major rectangular data the
index i maps to w*h-1-i, which is exactly list reversal. -/
def rotate180 (img : Img) : Img :=
  { img with pix := img.pix.reverse }

/-- Modelled from the spec: hue rotation on one pixel shifts the hue angle
by `d` degrees (mod 360) and leaves saturation and luminance unchanged
(the implementation lives in the external `image` crate). -/
def huerotateColor (d : Nat) (c : HSL) : HSL :=
  { c with hue := ⟨(c.hue.val + d) % 360, Nat.mod_lt _ (by decide)⟩ }

/-- Pointwise hue rotation of an image (`DynamicImage::huerotate`). -/
def huerotate (d : Nat) (img : Img) : Img :=
  { img with pix := img.pix.map (huerotateColor d) }

/-- The pixel used when a nearest-neighbour sample falls outside the stored
data (cannot happen on rectangular data; needed for totality). -/
def blackPixel : HSL := ⟨⟨0, by decide⟩, 0, 0⟩

/-- Nearest-neighbour resize to exactly `tw × th`
(`DynamicImage::resize_exact` with `FilterType::Nearest`): every destination
pixel takes the nearest source pixel, with no interpolation. -/
def resizeExact (tw th : Nat) (img : Img) : Img :=
  { width := tw
    height := th
    pix := (List.range (tw * th)).map (fun i =>
      let x := i % tw
      let y := i / tw
      let sx := x * img.width / tw
      let sy := y * img.height / th
      img.pix.getD (sy * img.width + sx) blackPixel) }

/-- Quantisation step used by the modelled JPEG encoder at quality `q`
(lower quality means a coarser step; always at least 1). -/
def quantStep (q : Nat) : Nat := 31 - q % 31

/-- Lossy per-pixel quantisation performed by the modelled JPEG encoder:
the luminance is rounded down to a multiple of the quality's step. -/
def quantColor (q : Nat) (c : HSL) : HSL :=
  { c with lum := c.lum / quantStep q * quantStep q }

/-- Byte serialisation of one pixel inside the modelled JPEG stream. -/
def serializeColor (c : HSL) : List Nat := [c.hue.val, c.sat, c.lum]

/-- JPEG encoding at quality `q`
(`JpegEncoder::new_with_quality(_, q).encode_image(_)`): the SOI marker
bytes 0xFF 0xD8, the dimensions, then the lossily quantised pixels. -/
def jpegEncode (q : Nat) (img : Img) : List Nat :=
  255 :: 216 :: img.width :: img.height ::
    (img.pix.flatMap fun c => serializeColor (quantColor q c))

/-- Parse the pixel section of a modelled JPEG stream: groups of three
bytes (hue, saturation, luminance) with the hue below 360. -/
def parsePixels : List Nat → Option (List HSL)
  | [] => some []
  | h :: s :: l :: rest =>
    if hh : h < 360 then
      (parsePixels rest).map fun cs => ⟨⟨h, hh⟩, s, l⟩ :: cs
    else none
  | _ => none

/-- JPEG decoding (`image::load_from_memory_with_format(_, Jpeg)` and, at
the upload boundary, `image::load_from_memory`): succeeds exactly on a
well-formed modelled JPEG stream. -/
def jpegDecode : List Nat → Option Img
  | 255 :: 216 :: w :: h :: rest =>
    match parsePixels rest with
    | some cs => if cs.length = w * h then some ⟨w, h, cs⟩ else none
    | none => none
  | _ => none

/-- The random number source (`rand::thread_rng()`), modelled as a stream
of raw draws; draws past the end of the list default to 0. -/
abbrev Rng := List Nat

/-- One raw draw from the stream. -/
def Rng.next (r : Rng) : Nat × Rng := (r.headD 0, r.tail)

/-- `Rng::gen_range(lo..hi)`: uniform in [lo, hi); on an empty range the
Rust sampler panics, modelled as `none`. -/
def genRange (lo hi : Nat) (r : Rng) : Option (Nat × Rng) :=
  if lo < hi then
    let (n, r') := Rng.next r
    some (lo + n % (hi - lo), r')
  else none

/-- 2^32: image dimensions are `u32`, so `orig_w * 2` wraps at this
modulus (release-mode Rust semantics). -/
def u32Mod : Nat := 4294967296

/-- Outcome of a fallible, possibly panicking computation: a Rust panic
(`panicked`), a `Result::Err` from image decoding (`decodeFailed`), or
success. -/
inductive Outcome (α : Type) where
  | panicked
  | decodeFailed
  | ok (a : α)
deriving DecidableEq, Repr

/-- Sequencing of outcomes: failures propagate. -/
def Outcome.bind {α β : Type} : Outcome α → (α → Outcome β) → Outcome β
  | .panicked, _ => .panicked
  | .decodeFailed, _ => .decodeFailed
  | .ok a, f => f a

/-- One iteration of the `for _ in 0..2` loop body of
`BitCrush::bitcrush` (src/main.rs lines 97-113): resize to the temporary
dimensions with nearest-neighbour filtering, rotate 180 degrees, rotate the
hue 180 degrees, JPEG-encode at a freshly drawn quality in [10, 30), decode
the bytes back, and resize back to the original dimensions. -/
def crushPass (origW origH tempW tempH : Nat) (st : Img × Rng) :
    Outcome (Img × Rng) :=
  match genRange 10 30 st.2 with
  | none => .panicked
  | some (q, r') =>
    match jpegDecode (jpegEncode q
        (huerotate 180 (rotate180 (resizeExact tempW tempH st.1)))) with
    | none => .decodeFailed
    | some d => .ok (resizeExact origW origH d, r')

/-- `BitCrush::bitcrush` for `DynamicImage` (src/main.rs lines 87-115):
record the original dimensions, draw the temporary dimensions from
[w/2, w*2) and [h/2, h*2) (u32 arithmetic), then run the loop body twice. -/
def bitcrush (img : Img) (r : Rng) : Outcome (Img × Rng) :=
  match genRange (img.width / 2) (img.width * 2 % u32Mod) r with
  | none => .panicked
  | some (tempW, r1) =>
    match genRange (img.height / 2) (img.height * 2 % u32Mod) r1 with
    | none => .panicked
    | some (tempH, r2) =>
      (List.range 2).foldl
        (fun acc _ => acc.bind (crushPass img.width img.height tempW tempH))
        (.ok (img, r2))

/-- Modelled from the spec: one iteration of the degradation loop,
following steps (a)-(f) of the algorithm in section 4.1 word by word. -/
def specIteration (W H tempW tempH : Nat) (st : Img × Rng) :
    Outcome (Img × Rng) :=
  let a := resizeExact tempW tempH st.1
  let b := rotate180 a
  let c := huerotate 180 b
  match genRange 10 30 st.2 with
  | none => .panicked
  | some (q, r') =>
    let bytes := jpegEncode q c
    match jpegDecode bytes with
    | none => .decodeFailed
    | some d => .ok (resizeExact W H d, r')

/-- Modelled from the spec: the full section 4.1 algorithm — record (W, H),
sample (tempW, tempH) once before the loop, then apply the iteration
exactly twice with that single pair. -/
def bitcrushSpec (img : Img) (r : Rng) : Outcome (Img × Rng) :=
  match genRange (img.width / 2) (img.width * 2 % u32Mod) r with
  | none => .panicked
  | some (tempW, r1) =>
    match genRange (img.height / 2) (img.height * 2 % u32Mod) r1 with
    | none => .panicked
    | some (tempH, r2) =>
      (specIteration img.width img.height tempW tempH (img, r2)).bind
        (specIteration img.width img.height tempW tempH)

/-- The fixed output encoding quality (`pub const JPEG_QUALITY: u8 = 25`,
src/main.rs line 27). -/
def JPEG_QUALITY : Nat := 25

/-- A stored artifact (`struct Image`): a content-type tag and bytes. -/
structure StoredImage where
  mime : String
  contents : List Nat
deriving DecidableEq, Repr

/-- The artifact store (`HashMap<String, Image>` behind the `RwLock`),
modelled as an association list with newest entry first. -/
abbrev Store := List (String × StoredImage)

/-- `HashMap::insert`: the new binding shadows any older one. -/
def Store.insert (id : String) (img : StoredImage) (st : Store) : Store :=
  (id, img) :: st

/-- `HashMap::get`: the newest binding for the key, if any. -/
def Store.find (id : String) : Store → Option StoredImage
  | [] => none
  | (k, v) :: rest => if k = id then some v else Store.find id rest

/-- Crockford base32, the output alphabet of ULID identifiers (notably it
has no '.' character). -/
def crockfordAlphabet : List Char := "0123456789ABCDEFGHJKMNPQRSTVWXYZ".data

/-- One character of a generated identifier, picked from the Crockford
alphabet by a raw draw. -/
def ulidChar (n : Nat) : Char := crockfordAlphabet.getD (n % 32) '0'

/-- The first component: `k` identifier characters generated from the
stream; the second: the stream afterwards. -/
def ulidChars : Nat → Rng → List Char × Rng
  | 0, r => ([], r)
  | k + 1, r =>
    (ulidChar (Rng.next r).1 :: (ulidChars k (Rng.next r).2).1,
     (ulidChars k (Rng.next r).2).2)

/-- Modelled from the spec: `Ulid::new().to_string()` (the external `ulid`
crate) — a fresh 26-character identifier over the Crockford base32
alphabet, drawn from the entropy source. -/
def ulidNew (r : Rng) : String × Rng :=
  (String.mk (ulidChars 26 r).1, (ulidChars 26 r).2)

/-- Outcome of the `/upload` handler (src/main.rs lines 159-188):
success with the JSON `src` reference, a decode failure on non-image
bytes, a panic inside the transform, or an error from the transform. -/
inductive UploadResult where
  | ok (src : String)
  | decodeFailed
  | transformPanicked
  | transformFailed
deriving DecidableEq, Repr

/-- Whether the upload produced a 200 response. -/
def UploadResult.isOk : UploadResult → Bool
  | .ok _ => true
  | _ => false

/-- The `/upload` handler (src/main.rs lines 159-188): decode the body,
bitcrush it, re-encode at the fixed `JPEG_QUALITY`, mint a ULID, insert
the artifact into the store, and answer with `/images/<id>.jpg`.  Every
failure leaves the store untouched. -/
def uploadHandler (body : List Nat) (r : Rng) (st : Store) :
    UploadResult × Store :=
  match jpegDecode body with
  | none => (.decodeFailed, st)
  | some img =>
    match bitcrush img r with
    | .panicked => (.transformPanicked, st)
    | .decodeFailed => (.transformFailed, st)
    | .ok (timg, r') =>
      let output := jpegEncode JPEG_QUALITY timg
      let id := (ulidNew r').1
      let src := "/images/" ++ id ++ ".jpg"
      (.ok src, Store.insert id ⟨"image/jpeg", output⟩ st)

/-- `str::split('.')` on a character list: always yields at least one
segment ("" splits to [""], a leading '.' yields a first empty segment). -/
def splitDot : List Char → List (List Char)
  | [] => [[]]
  | c :: rest =>
    if c = '.' then [] :: splitDot rest
    else
      match splitDot rest with
      | [] => [[c]]
      | s :: ss => (c :: s) :: ss

/-- The id extraction of `serve_image` (src/main.rs line 229):
`id.split('.').rev().last()` — the last element of the reversed segment
list, i.e. the segment preceding the first '.'.  The `unwrap` in the
source is modelled by keeping the `Option`. -/
def firstSegment (token : String) : Option String :=
  ((splitDot token.data).reverse.getLast?).map String.mk

/-- Response of the `/images/:name` handler: the stored artifact, a 404,
or a panic (were the `unwrap` on the parsed id ever to fail). -/
inductive Response where
  | found (mime : String) (contents : List Nat)
  | notFound
  | panicked
deriving DecidableEq, Repr

/-- `serve_image` (src/main.rs lines 227-241): parse the id out of the
path token, look it up, and serve the artifact or a 404. -/
def serveImage (token : String) (st : Store) : Response :=
  match firstSegment token with
  | none => .panicked
  | some id =>
    match Store.find id st with
    | some img => .found img.mime img.contents
    | none => .notFound

/-- A concrete 1-by-1 image used to witness the theorems. -/
def demoImg : Img := ⟨1, 1, [blackPixel]⟩

/-- A concrete draw stream: temporary dimensions 1 and 1, then qualities
10 and 10 (later draws default to 0). -/
def demoRng : Rng := [1, 1, 0, 0]

/-- The image `bitcrush demoImg demoRng` produces. -/
def demoOut : Img := ⟨1, 1, [blackPixel]⟩

/-- A degenerate image of width 0. -/
def zeroImg : Img := ⟨0, 1, []⟩

/-- The modelled JPEG bytes of `demoImg`, a valid upload body. -/
def demoBody : List Nat := [255, 216, 1, 1, 0, 0, 0]

/-- On a non-empty range the sampler succeeds and consumes one draw. -/
theorem genRange_pos {lo hi : Nat} (h : lo < hi) (r : Rng) :
    genRange lo hi r = some (lo + r.headD 0 % (hi - lo), r.tail) := by
  simp [genRange, Rng.next, h]

/-- A successful loop iteration ends with the back-resize, so its image has
the original dimensions. -/
theorem crushPass_ok_dims {W H tw th : Nat} {s p : Img × Rng}
    (h : crushPass W H tw th s = .ok p) :
    p.1.width = W ∧ p.1.height = H := by
  unfold crushPass at h
  split at h
  · simp at h
  · split at h
    · simp at h
    · cases h
      exact ⟨rfl, rfl⟩

/-- The loop iteration never panics: the quality range [10, 30) is never
empty. -/
theorem crushPass_ne_panicked (W H tw th : Nat) (s : Img × Rng) :
    crushPass W H tw th s ≠ .panicked := by
  unfold crushPass
  split
  next heq =>
    rw [genRange_pos (by omega) s.2] at heq
    simp at heq
  next q r' _ =>
    split <;> simp

/-- C1: for every valid decodable input image of dimensions W×H with
W, H ≥ 1, the bitcrush transform returns successfully only with an image
whose dimensions are exactly W×H. -/
theorem bitcrush_dims (img : Img) (r : Rng) (_hW : 1 ≤ img.width)
    (_hH : 1 ≤ img.height) (p : Img × Rng)
    (h : bitcrush img r = .ok p) :
    p.1.width = img.width ∧ p.1.height = img.height := by
  unfold bitcrush at h
  split at h
  · simp at h
  next tempW r1 _ =>
    split at h
    · simp at h
    next tempH r2 _ =>
      rw [show List.range 2 = [0, 1] from rfl] at h
      simp only [List.foldl_cons, List.foldl_nil, Outcome.bind] at h
      rcases h1 : crushPass img.width img.height tempW tempH (img, r2) with
        _ | _ | p1 <;> rw [h1] at h <;> simp only [Outcome.bind] at h
      · simp at h
      · simp at h
      · exact crushPass_ok_dims h

/-- Witness for C1: a concrete 1-by-1 image and draw stream on which
bitcrush succeeds with a 1-by-1 output. -/
theorem bitcrush_dims_witness :
    1 ≤ demoImg.width ∧ 1 ≤ demoImg.height ∧
    demoOut.width = demoImg.width ∧ demoOut.height = demoImg.height :=
  ⟨by decide, by decide,
   (bitcrush_dims demoImg demoRng (by decide) (by decide) (demoOut, [])
     (by decide)).1,
   (bitcrush_dims demoImg demoRng (by decide) (by decide) (demoOut, [])
     (by decide)).2⟩

/-- C2: the bitcrush transform performs exactly 2 iterations, each applying
in order: nearest-neighbour resize to (tempW, tempH), 180-degree rotation,
180-degree hue rotation, JPEG encoding at a quality freshly drawn from
[10, 30) for that iteration, decoding the bytes back, and nearest-neighbour
resize back to (W, H) — i.e. the source transform coincides with the
algorithm of section 4.1 transcribed from the spec. -/
theorem bitcrush_refines_spec (img : Img) (r : Rng) :
    bitcrush img r = bitcrushSpec img r := rfl

/-- C8: the structural transforms are self-cancelling over two
applications — the 180-degree rotation is an involution on pixel data, the
180-degree hue rotation is an involution (180 + 180 = 360 ≡ 0), and a
single hue rotation leaves saturation and luminance unchanged. -/
theorem structural_transforms_cancel (img : Img) :
    rotate180 (rotate180 img) = img ∧
    huerotate 180 (huerotate 180 img) = img ∧
    ∀ c : HSL, (huerotateColor 180 c).sat = c.sat ∧
      (huerotateColor 180 c).lum = c.lum := by
  have hcc : ∀ c : HSL, huerotateColor 180 (huerotateColor 180 c) = c := by
    rintro ⟨⟨hv, hlt⟩, s, l⟩
    simp only [huerotateColor, HSL.mk.injEq, Fin.mk.injEq, and_true, true_and,
      and_self, eq_self_iff_true]
    omega
  refine ⟨?_, ?_, fun c => ⟨rfl, rfl⟩⟩
  · cases img with
    | mk w h pix => simp [rotate180]
  · cases img with
    | mk w h pix =>
      simp only [huerotate]
      have hfun : huerotateColor 180 ∘ huerotateColor 180 = id := by
        funext c
        exact hcc c
      simp [List.map_map, hfun]

/-- C9 first half ingredient: the sampling ranges are non-empty for
non-degenerate dimensions, and the rest of the transform cannot panic. -/
theorem bitcrush_sampling (img : Img) (r : Rng) :
    ((1 ≤ img.width ∧ 1 ≤ img.height ∧ img.width * 2 < u32Mod ∧
        img.height * 2 < u32Mod) → bitcrush img r ≠ .panicked) ∧
    ((img.width = 0 ∨ img.height = 0) → bitcrush img r = .panicked) := by
  constructor
  · rintro ⟨hW, hH, hW2, hH2⟩ hpan
    unfold bitcrush at hpan
    split at hpan
    next heq =>
      rw [Nat.mod_eq_of_lt hW2, genRange_pos (by omega) r] at heq
      simp at heq
    next tempW r1 _ =>
      split at hpan
      next heq =>
        rw [Nat.mod_eq_of_lt hH2, genRange_pos (by omega) r1] at heq
        simp at heq
      next tempH r2 _ =>
        rw [show List.range 2 = [0, 1] from rfl] at hpan
        simp only [List.foldl_cons, List.foldl_nil, Outcome.bind] at hpan
        rcases h1 : crushPass img.width img.height tempW tempH (img, r2) with
          _ | _ | p1 <;> rw [h1] at hpan <;> simp only [Outcome.bind] at hpan
        · exact crushPass_ne_panicked _ _ _ _ _ h1
        · simp at hpan
        · exact crushPass_ne_panicked _ _ _ _ _ hpan
  · rintro (h0 | h0)
    · unfold bitcrush
      rw [h0]
      simp [genRange]
    · unfold bitcrush
      rw [h0]
      rcases genRange (img.width / 2) (img.width * 2 % u32Mod) r with
        _ | ⟨tw, r1⟩ <;> simp [genRange]

/-- Witness for C9: the non-degenerate demo image never panics; a width-0
image panics. -/
theorem bitcrush_sampling_witness :
    bitcrush demoImg demoRng ≠ .panicked ∧
    bitcrush zeroImg demoRng = .panicked :=
  ⟨(bitcrush_sampling demoImg demoRng).1
    ⟨by decide, by decide, by decide, by decide⟩,
   (bitcrush_sampling zeroImg demoRng).2 (Or.inl (by decide))⟩

/-- C5: the intermediate dimensions are sampled exactly once, before the
degradation loop — tempW uniform in [W/2, W*2), tempH uniform in
[H/2, H*2) (u32 arithmetic, integer division for the lower bounds), the
two consecutive draws coming first off the stream — and the single pair is
reused unchanged by both iterations of the loop. -/
theorem temp_dims_once (img : Img) (r : Rng) (hW : 1 ≤ img.width)
    (hW2 : img.width * 2 < u32Mod) (hH : 1 ≤ img.height)
    (hH2 : img.height * 2 < u32Mod) :
    ∃ tempW tempH r1 r2,
      genRange (img.width / 2) (img.width * 2 % u32Mod) r =
        some (tempW, r1) ∧
      genRange (img.height / 2) (img.height * 2 % u32Mod) r1 =
        some (tempH, r2) ∧
      img.width / 2 ≤ tempW ∧ tempW < img.width * 2 ∧
      img.height / 2 ≤ tempH ∧ tempH < img.height * 2 ∧
      bitcrush img r =
        (crushPass img.width img.height tempW tempH (img, r2)).bind
          (crushPass img.width img.height tempW tempH) := by
  have hww : img.width * 2 % u32Mod = img.width * 2 := Nat.mod_eq_of_lt hW2
  have hhh : img.height * 2 % u32Mod = img.height * 2 := Nat.mod_eq_of_lt hH2
  have hw : img.width / 2 < img.width * 2 % u32Mod := by rw [hww]; omega
  have hh : img.height / 2 < img.height * 2 % u32Mod := by rw [hhh]; omega
  refine ⟨_, _, _, _, genRange_pos hw r, genRange_pos hh r.tail,
    Nat.le_add_right _ _, ?_, Nat.le_add_right _ _, ?_, ?_⟩
  · have hm : r.headD 0 % (img.width * 2 % u32Mod - img.width / 2) <
        img.width * 2 % u32Mod - img.width / 2 :=
      Nat.mod_lt _ (by omega)
    omega
  · have hm : r.tail.headD 0 % (img.height * 2 % u32Mod - img.height / 2) <
        img.height * 2 % u32Mod - img.height / 2 :=
      Nat.mod_lt _ (by omega)
    omega
  · unfold bitcrush
    simp only [genRange_pos hw, genRange_pos hh,
      show List.range 2 = [0, 1] from rfl, List.foldl_cons, List.foldl_nil,
      Outcome.bind]

/-- Witness for C5: the sampling facts at the concrete demo inputs. -/
theorem temp_dims_once_witness :
    (1 ≤ demoImg.width ∧ demoImg.width * 2 < u32Mod ∧
      1 ≤ demoImg.height ∧ demoImg.height * 2 < u32Mod) ∧
    ∃ tempW tempH r1 r2,
      genRange (demoImg.width / 2) (demoImg.width * 2 % u32Mod) demoRng =
        some (tempW, r1) ∧
      genRange (demoImg.height / 2) (demoImg.height * 2 % u32Mod) r1 =
        some (tempH, r2) ∧
      demoImg.width / 2 ≤ tempW ∧ tempW < demoImg.width * 2 ∧
      demoImg.height / 2 ≤ tempH ∧ tempH < demoImg.height * 2 ∧
      bitcrush demoImg demoRng =
        (crushPass demoImg.width demoImg.height tempW tempH
          (demoImg, r2)).bind
          (crushPass demoImg.width demoImg.height tempW tempH) :=
  ⟨⟨by decide, by decide, by decide, by decide⟩,
   temp_dims_once demoImg demoRng (by decide) (by decide) (by decide)
     (by decide)⟩

/-- Each generated identifier character comes from the Crockford alphabet,
which contains no '.' character. -/
theorem ulidChar_ne_dot (n : Nat) : ulidChar n ≠ '.' := by
  have h32 : n % 32 < 32 := Nat.mod_lt _ (by decide)
  have hall : ∀ i : Fin 32, crockfordAlphabet.getD i.val '0' ≠ '.' := by decide
  exact hall ⟨n % 32, h32⟩

/-- No generated identifier contains a '.' character. -/
theorem ulidChars_no_dot (k : Nat) (r : Rng) : '.' ∉ (ulidChars k r).1 := by
  induction k generalizing r with
  | zero => simp [ulidChars]
  | succ k ih =>
    simp only [ulidChars, List.mem_cons, not_or]
    exact ⟨fun h => ulidChar_ne_dot _ h.symm, ih _⟩

/-- The identifier returned by `ulidNew` contains no '.' character. -/
theorem ulidNew_no_dot (r : Rng) : '.' ∉ (ulidNew r).1.data :=
  ulidChars_no_dot 26 r

/-- Splitting on '.' always yields at least one segment. -/
theorem splitDot_ne_nil (cs : List Char) : splitDot cs ≠ [] := by
  induction cs with
  | nil => simp [splitDot]
  | cons c rest _ =>
    unfold splitDot
    split
    · simp
    · split <;> simp

/-- Splitting a dot-free prefix followed by '.' isolates that prefix as
the first segment. -/
theorem splitDot_append (xs ys : List Char) (hx : '.' ∉ xs) :
    splitDot (xs ++ '.' :: ys) = xs :: splitDot ys := by
  induction xs with
  | nil => simp [splitDot]
  | cons c cs ih =>
    have hc : ¬c = '.' := fun h => hx (h ▸ List.mem_cons_self _ _)
    have hcs : '.' ∉ cs := fun h => hx (List.mem_cons_of_mem _ h)
    simp only [List.cons_append, splitDot, if_neg hc]
    have ih' : splitDot (List.append cs ('.' :: ys)) = cs :: splitDot ys :=
      ih hcs
    rw [ih']

/-- Parsing the display token `<id>.jpg` recovers the id, provided the id
is dot-free. -/
theorem firstSegment_append_jpg (id : String) (h : '.' ∉ id.data) :
    firstSegment (id ++ ".jpg") = some id := by
  obtain ⟨l⟩ := id
  unfold firstSegment
  have hdata : ((⟨l⟩ : String) ++ ".jpg").data = l ++ '.' :: ['j', 'p', 'g'] :=
    rfl
  rw [hdata, splitDot_append l _ h, List.getLast?_reverse]
  rfl

/-- Looking up an id immediately after inserting it finds the new entry. -/
theorem find_insert (id : String) (v : StoredImage) (st : Store) :
    Store.find id (Store.insert id v st) = some v := by
  simp [Store.insert, Store.find]

/-- C3: after a successful submit, an immediate retrieve with the returned
token `<id>.jpg` (parsed by taking the segment preceding the first '.')
finds the stored entry and returns non-empty bytes with content-type
image/jpeg. -/
theorem submit_then_retrieve (body : List Nat) (r : Rng) (st : Store)
    (h : (uploadHandler body r st).1.isOk = true) :
    ∃ id contents,
      (uploadHandler body r st).1 = .ok ("/images/" ++ id ++ ".jpg") ∧
      serveImage (id ++ ".jpg") (uploadHandler body r st).2 =
        .found "image/jpeg" contents ∧
      contents ≠ [] := by
  unfold uploadHandler at h ⊢
  rcases hdec : jpegDecode body with _ | img
  · rw [hdec] at h
    simp [UploadResult.isOk] at h
  · rw [hdec] at h
    dsimp only at h ⊢
    rcases hbc : bitcrush img r with _ | _ | ⟨timg, r'⟩
    · rw [hbc] at h
      simp [UploadResult.isOk] at h
    · rw [hbc] at h
      simp [UploadResult.isOk] at h
    · dsimp only
      refine ⟨(ulidNew r').1, jpegEncode JPEG_QUALITY timg, rfl, ?_, ?_⟩
      · unfold serveImage
        rw [firstSegment_append_jpg _ (ulidNew_no_dot r')]
        dsimp only
        rw [find_insert]
      · simp [jpegEncode]

/-- Witness for C3: a concrete successful upload followed by a retrieve. -/
theorem submit_then_retrieve_witness :
    (uploadHandler demoBody demoRng []).1.isOk = true ∧
    ∃ id contents,
      (uploadHandler demoBody demoRng []).1 =
        .ok ("/images/" ++ id ++ ".jpg") ∧
      serveImage (id ++ ".jpg") (uploadHandler demoBody demoRng []).2 =
        .found "image/jpeg" contents ∧
      contents ≠ [] :=
  ⟨by decide, submit_then_retrieve demoBody demoRng [] (by decide)⟩

/-- C4: if submit fails (decode error on non-image bytes, a panic, or an
error inside the transform), the store is left completely unchanged. -/
theorem submit_failure_leaves_store (body : List Nat) (r : Rng) (st : Store)
    (h : (uploadHandler body r st).1.isOk = false) :
    (uploadHandler body r st).2 = st := by
  unfold uploadHandler at h ⊢
  rcases hdec : jpegDecode body with _ | img
  · rfl
  · rw [hdec] at h
    dsimp only at h ⊢
    rcases hbc : bitcrush img r with _ | _ | ⟨timg, r'⟩
    · rfl
    · rfl
    · rw [hbc] at h
      simp [UploadResult.isOk] at h

/-- Witness for C4: uploading the empty byte string fails to decode and
leaves the empty store empty. -/
theorem submit_failure_witness :
    (uploadHandler [] demoRng []).1.isOk = false ∧
    (uploadHandler [] demoRng []).2 = [] :=
  ⟨by decide, submit_failure_leaves_store [] demoRng [] (by decide)⟩

/-- C6: a successful submit returns exactly `/images/<id>.jpg` for the
freshly generated id, and stores under that id the transformed image
encoded at the module-wide constant quality `JPEG_QUALITY = 25`
(independent of the per-iteration random qualities), with content-type
image/jpeg. -/
theorem submit_success_shape (body : List Nat) (r : Rng) (st : Store)
    (h : (uploadHandler body r st).1.isOk = true) :
    JPEG_QUALITY = 25 ∧
    ∃ img timg r',
      jpegDecode body = some img ∧
      bitcrush img r = .ok (timg, r') ∧
      (uploadHandler body r st).1 =
        .ok ("/images/" ++ (ulidNew r').1 ++ ".jpg") ∧
      (uploadHandler body r st).2 =
        Store.insert (ulidNew r').1
          ⟨"image/jpeg", jpegEncode JPEG_QUALITY timg⟩ st := by
  refine ⟨rfl, ?_⟩
  unfold uploadHandler at h ⊢
  rcases hdec : jpegDecode body with _ | img
  · rw [hdec] at h
    simp [UploadResult.isOk] at h
  · rw [hdec] at h
    dsimp only at h ⊢
    rcases hbc : bitcrush img r with _ | _ | ⟨timg, r'⟩
    · rw [hbc] at h
      simp [UploadResult.isOk] at h
    · rw [hbc] at h
      simp [UploadResult.isOk] at h
    · exact ⟨img, timg, r', rfl, hbc, rfl, rfl⟩

/-- Witness for C6: the concrete demo upload succeeds with the required
shape. -/
theorem submit_success_shape_witness :
    (uploadHandler demoBody demoRng []).1.isOk = true ∧
    (JPEG_QUALITY = 25 ∧
      ∃ img timg r',
        jpegDecode demoBody = some img ∧
        bitcrush img demoRng = .ok (timg, r') ∧
        (uploadHandler demoBody demoRng []).1 =
          .ok ("/images/" ++ (ulidNew r').1 ++ ".jpg") ∧
        (uploadHandler demoBody demoRng []).2 =
          Store.insert (ulidNew r').1
            ⟨"image/jpeg", jpegEncode JPEG_QUALITY timg⟩ []) :=
  ⟨by decide, submit_success_shape demoBody demoRng [] (by decide)⟩

/-- C7: retrieve with a token whose parsed id was never stored returns
the not-found signal, never a decode error or any other failure. -/
theorem retrieve_absent (token : String) (st : Store) (id : String)
    (hparse : firstSegment token = some id)
    (habsent : Store.find id st = none) :
    serveImage token st = .notFound := by
  unfold serveImage
  rw [hparse]
  simp only [habsent]

/-- Witness for C7: retrieving `abc.jpg` from the empty store is a 404. -/
theorem retrieve_absent_witness :
    firstSegment "abc.jpg" = some "abc" ∧
    Store.find "abc" [] = none ∧
    serveImage "abc.jpg" [] = .notFound :=
  ⟨by decide, rfl, retrieve_absent "abc.jpg" [] "abc" (by decide) rfl⟩

/-- C10: retrieval-token parsing is total — for every token string the
split on '.' yields at least one segment, so the id extraction never
fails and `serveImage` never reaches its panic branch. -/
theorem token_parsing_total (token : String) (st : Store) :
    (∃ id, firstSegment token = some id) ∧
    serveImage token st ≠ .panicked := by
  obtain ⟨s, ss, hss⟩ : ∃ s ss, splitDot token.data = s :: ss := by
    rcases hsd : splitDot token.data with _ | ⟨s, ss⟩
    · exact absurd hsd (splitDot_ne_nil _)
    · exact ⟨s, ss, rfl⟩
  have hfs : firstSegment token = some (String.mk s) := by
    unfold firstSegment
    rw [hss, List.getLast?_reverse]
    rfl
  refine ⟨⟨_, hfs⟩, ?_⟩
  unfold serveImage
  rw [hfs]
  rcases hfind : Store.find (String.mk s) st with _ | img <;>
    simp [hfind]

end MoreJpeg
